import Mathlib

/-!
A shallow embedding of the numerical core of `commah` (src/commah/commah.py).

The external collaborators (scipy's quadrature and bracketed root finder,
cosmolopy's perturbation-theory functions) are modelled as oracle parameters
collected in `Oracles`; the commah functions themselves are translated directly
from the source.  Machine floats are modelled as real numbers; a raised
Python exception is modelled as the `.error` case of `Except`.
-/

/-- Oracles for the external collaborators, fixed for one resolved cosmology:
`quad f a b` is the value component of `scipy.integrate.quad(f, a, b)`,
`mass_to_radius` is `cp.perturbation.mass_to_radius(M, **cosmo)`,
`sigma_r` is the value component of `cp.perturbation.sigma_r(R, 0, **cosmo)`,
and `brentq f a b` is `scipy.optimize.brentq(f, a, b)`, with `.error`
standing for a raised exception (no sign change in the bracket). -/
structure Oracles where
  quad : (ℝ → ℝ) → ℝ → ℝ → ℝ
  mass_to_radius : ℝ → ℝ
  sigma_r : ℝ → ℝ
  brentq : (ℝ → ℝ) → ℝ → ℝ → Except Unit ℝ

/-- The fields of the resolved cosmology dictionary that the numeric core of
commah.py reads (as `cosmo['omega_M_0']` and so on). -/
structure CosmoP where
  omega_M_0 : ℝ
  omega_lambda_0 : ℝ
  h : ℝ
  A_scaling : ℝ

/-- Model of `_int_growth(z, **cosmo)` (commah.py:226-242): the scipy quadrature of the
growth integrand from `z` to `zmax = 200`.  The function asserts `z < 200`
before integrating; the assert does not affect the returned value when the
precondition holds. -/
noncomputable def int_growth (E : Oracles) (C : CosmoP) (z : ℝ) : ℝ :=
  E.quad (fun zp => (1 + zp) / (C.omega_M_0 * (1 + zp) ^ 3 + C.omega_lambda_0) ^ (1.5 : ℝ))
    z 200

/-- Model of `growthfactor(z, norm, **cosmo)` (commah.py:259-291). -/
noncomputable def growthfactor (E : Oracles) (C : CosmoP) (z : ℝ) (norm : Bool) : ℝ :=
  let H := Real.sqrt (C.omega_M_0 * (1 + z) ^ 3 + C.omega_lambda_0)
  let growthval := H * int_growth E C z
  if norm then growthval / int_growth E C 0 else growthval

/-- Model of `_deriv_growth(z, **cosmo)` (commah.py:245-256). -/
noncomputable def deriv_growth (E : Oracles) (C : CosmoP) (z : ℝ) : ℝ :=
  let inv_h := (C.omega_M_0 * (1 + z) ^ 3 + C.omega_lambda_0) ^ (-0.5 : ℝ)
  let fz := (1 + z) * inv_h ^ 3
  growthfactor E C z true * inv_h ^ 2 * 1.5 * C.omega_M_0 * (1 + z) ^ 2 -
    fz * growthfactor E C z true / int_growth E C z

/-- Model of `_minimize_c(c, z, a_tilde, b_tilde, Ascaling, omega_M_0, omega_lambda_0)`
(commah.py:294-319): the residual whose root in `c` is the concentration. -/
noncomputable def minimize_c (c z a_tilde b_tilde Ascaling omega_M_0 omega_lambda_0 : ℝ) : ℝ :=
  let Y1 := Real.log 2 - 0.5
  let Yc := Real.log (1 + c) - c / (1 + c)
  let f1 := Y1 / Yc
  let rho_2 := 200 * c ^ 3 * Y1 / Yc
  let zf := (((1 + z) ^ 3 + omega_lambda_0 / omega_M_0) * (rho_2 / Ascaling) -
    omega_lambda_0 / omega_M_0) ^ ((1 : ℝ) / 3) - 1
  let f2 := (1 + zf - z) ^ a_tilde * Real.exp ((zf - z) * b_tilde)
  f1 - f2

/-- Model of `formationz(c, z, Ascaling, omega_M_0, omega_lambda_0)` (commah.py:322-353). -/
noncomputable def formationz (c z Ascaling omega_M_0 omega_lambda_0 : ℝ) : ℝ :=
  let Y1 := Real.log 2 - 0.5
  let Yc := Real.log (1 + c) - c / (1 + c)
  let rho_2 := 200 * c ^ 3 * Y1 / Yc
  (((1 + z) ^ 3 + omega_lambda_0 / omega_M_0) * (rho_2 / Ascaling) -
    omega_lambda_0 / omega_M_0) ^ ((1 : ℝ) / 3) - 1

/-- Model of `calc_ab(zi, Mi, **cosmo)` (commah.py:356-404): the growth-rate indices
`(a_tilde, b_tilde)`.  `np.log10` is `Real.logb 10`. -/
noncomputable def calc_ab (E : Oracles) (C : CosmoP) (zi Mi : ℝ) : ℝ × ℝ :=
  let zf := -0.0064 * (Real.logb 10 Mi) ^ 2 + 0.0237 * (Real.logb 10 Mi) + 1.8837
  let q := 4.137 * zf ^ (-0.9476 : ℝ)
  let R_Mass := E.mass_to_radius Mi
  let Rq_Mass := E.mass_to_radius (Mi / q)
  let sig := E.sigma_r R_Mass
  let sigq := E.sigma_r Rq_Mass
  let f := (sigq ^ 2 - sig ^ 2) ^ (-0.5 : ℝ)
  let a_tilde := (Real.sqrt (2 / Real.pi) * 1.686 * deriv_growth E C zi /
    growthfactor E C zi true ^ 2 + 1) * f
  let b_tilde := -f
  (a_tilde, b_tilde)

/-- Model of `acc_rate(z, zi, Mi, **cosmo)` (commah.py:407-445): accretion rate and halo
mass at redshift `z`, returned as the pair `(dMdt, Mz)`. -/
noncomputable def acc_rate (E : Oracles) (C : CosmoP) (z zi Mi : ℝ) : ℝ × ℝ :=
  let a_tilde := (calc_ab E C zi Mi).1
  let b_tilde := (calc_ab E C zi Mi).2
  let Mz := Mi * (1 + z - zi) ^ a_tilde * Real.exp (b_tilde * (z - zi))
  let dMdt := 71.6 * (Mz / 1e12) * (C.h / 0.7) *
    (-a_tilde / (1 + z - zi) - b_tilde) * (1 + z) *
    Real.sqrt (C.omega_M_0 * (1 + z) ^ 3 + C.omega_lambda_0)
  (dMdt, Mz)

/-- Model of `MAH(z, zi, Mi, **cosmo)` (commah.py:448-487): the per-redshift loop over
`acc_rate`, producing the parallel arrays `(dMdt_array, Mz_array)`. -/
noncomputable def MAH (E : Oracles) (C : CosmoP) (z : List ℝ) (zi Mi : ℝ) : List ℝ × List ℝ :=
  (z.map fun zval => (acc_rate E C zval zi Mi).1,
   z.map fun zval => (acc_rate E C zval zi Mi).2)

/-- Sequencing of a fallible computation over a list, aborting at the first
`.error`: the model of a Python loop in which an iteration may raise. -/
def exceptMap {α β ε : Type} (f : α → Except ε β) : List α → Except ε (List β)
  | [] => .ok []
  | a :: l =>
    match f a with
    | .error e => .error e
    | .ok b =>
      match exceptMap f l with
      | .error e => .error e
      | .ok bs => .ok (b :: bs)

/-- One iteration of the loop in `COM` (commah.py:523-557): recompute the
indices at this `(z, M)`, root-find the concentration with brentq in the
bracket `[2, 1000]`, and either store the sentinel row `(-1, -1, -1, -1)` when
`np.isclose(c, 0)` (i.e. `|c - 0| <= atol + rtol*|0|` with the numpy defaults
`rtol = 1e-5`, `atol = 1e-8`) or the success row `(c, sig, nu, zf)`. -/
noncomputable def COM_row (E : Oracles) (C : CosmoP) (zval Mval : ℝ) : Except Unit (ℝ × ℝ × ℝ × ℝ) :=
  let ab := calc_ab E C zval Mval
  match E.brentq (fun c => minimize_c c zval ab.1 ab.2 C.A_scaling C.omega_M_0
      C.omega_lambda_0) 2 1000 with
  | .error e => .error e
  | .ok c =>
    if |c - 0| ≤ 1e-8 + 1e-5 * |(0 : ℝ)| then
      .ok (-1, -1, -1, -1)
    else
      .ok (c, E.sigma_r (E.mass_to_radius Mval),
        1.686 / (E.sigma_r (E.mass_to_radius Mval) * growthfactor E C zval true),
        formationz c zval C.A_scaling C.omega_M_0 C.omega_lambda_0)

/-- Model of `COM(z, M, **cosmo)` (commah.py:490-559): the row loop over the co-indexed
`(z, M)` pairs (`_izip` truncates to the shorter list, as `zip` does). -/
noncomputable def COM (E : Oracles) (C : CosmoP) (z M : List ℝ) :
    Except Unit (List (ℝ × ℝ × ℝ × ℝ)) :=
  exceptMap (fun p => COM_row E C p.1 p.2) (z.zip M)

/-- Model of `_checkinput(zi, Mi, z)` (commah.py:29-69).  Scalars enter as singleton
lists (`np.array(x, ndmin=1)`); `z=False` enters as `none`.  The ambiguous-size
case (`return -1`) is `none`; otherwise the aligned arrays, the output-z
argument and the sizes `(zi.size, Mi.size, lenzout)` are returned. -/
def checkinput (zi Mi : List ℝ) (z : Option (List ℝ)) :
    Option (List ℝ × List ℝ × Option (List ℝ) × Nat × Nat × Nat) :=
  if 1 < zi.length ∧ 1 < Mi.length ∧ zi.length ≠ Mi.length then
    none
  else
    let zi2 := if zi.length = 1 ∧ 1 < Mi.length then
      List.replicate Mi.length (zi.headD 0) else zi
    let Mi2 := if Mi.length = 1 ∧ 1 < zi.length then
      List.replicate zi.length (Mi.headD 0) else Mi
    let lenzout := match z with
      | none => 1
      | some zl => zl.length
    some (zi2, Mi2, z, zi2.length, Mi2.length, lenzout)

/-- One cell of the structured dataset built by `run`.  `blank` is a cell of
the `np.zeros` allocation that the loop never writes (a skipped output
redshift); the other constructors are the three dtype layouts written at
commah.py:767, :779 and :791. -/
inductive OutRow where
  | blank : OutRow
  | mc (zi Mi z dMdt Mz c sig nu zf : ℝ) : OutRow
  | m (zi Mi z dMdt Mz : ℝ) : OutRow
  | co (zi Mi z c sig nu zf : ℝ) : OutRow

/-- The output-redshift column of a written cell (0 for a blank cell). -/
def OutRow.zout : OutRow → ℝ
  | .blank => 0
  | .mc _ _ z _ _ _ _ _ _ => z
  | .m _ _ z _ _ => z
  | .co _ _ z _ _ _ _ => z

/-- Forget the MAH columns of a joint (mah and com) cell, keeping the COM
columns; other cells are unchanged. -/
def OutRow.dropMah : OutRow → OutRow
  | .mc zi Mi z _ _ c sig nu zf => .co zi Mi z c sig nu zf
  | r => r

/-- The result of one `run` invocation: the sentinel `-1` return value, a
propagated exception, or the structured dataset. -/
inductive RunOut where
  | sentinel : RunOut
  | raised : RunOut
  | table : List (List OutRow) → RunOut

/-- Apply `OutRow.dropMah` to every cell of a table result. -/
def RunOut.dropMahCols : RunOut → RunOut
  | .table t => .table (t.map fun r => r.map OutRow.dropMah)
  | x => x

/-- The body of `run`'s sample loop (commah.py:744-797) for one `(zval, Mval)`
pair: select the targets `ztemp = z[z >= zval]` (or `[zval]` when `z` was not
given), and if any remain, compute the MAH block and write one cell per target
according to the `(mah, com)` flags, the remaining `lenzout - ztemp.size`
cells of the preallocated row staying blank. -/
noncomputable def runSampleRows (E : Oracles) (C : CosmoP) (com mah : Bool) (lenzout : Nat)
    (z : Option (List ℝ)) (zval Mval : ℝ) : Except Unit (List OutRow) :=
  let ztemp : List ℝ := match z with
    | none => [zval]
    | some zl => zl.filter fun x => decide (zval ≤ x)
  if ztemp.length ≠ 0 then
    let dMdt := (MAH E C ztemp zval Mval).1
    let Mz := (MAH E C ztemp zval Mval).2
    if mah && com then
      match COM E C ztemp Mz with
      | .error e => .error e
      | .ok rows =>
        .ok (((List.range ztemp.length).map fun j =>
          OutRow.mc zval Mval (ztemp.getD j 0) (dMdt.getD j 0) (Mz.getD j 0)
            (rows.getD j (0, 0, 0, 0)).1 (rows.getD j (0, 0, 0, 0)).2.1
            (rows.getD j (0, 0, 0, 0)).2.2.1 (rows.getD j (0, 0, 0, 0)).2.2.2) ++
          List.replicate (lenzout - ztemp.length) OutRow.blank)
    else if mah then
      .ok (((List.range ztemp.length).map fun j =>
        OutRow.m zval Mval (ztemp.getD j 0) (dMdt.getD j 0) (Mz.getD j 0)) ++
        List.replicate (lenzout - ztemp.length) OutRow.blank)
    else
      match COM E C ztemp Mz with
      | .error e => .error e
      | .ok rows =>
        .ok (((List.range ztemp.length).map fun j =>
          OutRow.co zval Mval (ztemp.getD j 0)
            (rows.getD j (0, 0, 0, 0)).1 (rows.getD j (0, 0, 0, 0)).2.1
            (rows.getD j (0, 0, 0, 0)).2.2.1 (rows.getD j (0, 0, 0, 0)).2.2.2) ++
          List.replicate (lenzout - ztemp.length) OutRow.blank)
  else
    .ok (List.replicate lenzout OutRow.blank)

/-- Model of `run(cosmology, zi, Mi, z, com, mah, ...)` (commah.py:562-806), for an
already-resolved cosmology `C` and with the optional file sink and verbose
printing omitted (external to the numeric core).  Returns the sentinel for
`com = mah = False` and for the ambiguous-size failure of `_checkinput`,
otherwise the dataset (or a propagated exception). -/
noncomputable def run (E : Oracles) (C : CosmoP) (zi0 Mi0 : List ℝ) (z : Option (List ℝ))
    (com mah : Bool) : RunOut :=
  if !com && !mah then .sentinel
  else
    match checkinput zi0 Mi0 z with
    | none => .sentinel
    | some (zi, Mi, z2, _, _, lenzout) =>
      match exceptMap (fun p => runSampleRows E C com mah lenzout z2 p.1 p.2)
          (zi.zip Mi) with
      | .error _ => .raised
      | .ok tbl => .table tbl

/-- Modelled from the spec: the behaviour asserted by claim C1 for
`com=True, mah=False` — the concentration solver invoked with `z` equal to the
valid targets and `M` equal to the original `Mi` broadcast over those targets
(instead of the MAH-evolved `Mz`).  Used only to compare against `run`. -/
noncomputable def runSampleRowsClaimC1 (E : Oracles) (C : CosmoP) (lenzout : Nat)
    (z : Option (List ℝ)) (zval Mval : ℝ) : Except Unit (List OutRow) :=
  let ztemp : List ℝ := match z with
    | none => [zval]
    | some zl => zl.filter fun x => decide (zval ≤ x)
  if ztemp.length ≠ 0 then
    match COM E C ztemp (List.replicate ztemp.length Mval) with
    | .error e => .error e
    | .ok rows =>
      .ok (((List.range ztemp.length).map fun j =>
        OutRow.co zval Mval (ztemp.getD j 0)
          (rows.getD j (0, 0, 0, 0)).1 (rows.getD j (0, 0, 0, 0)).2.1
          (rows.getD j (0, 0, 0, 0)).2.2.1 (rows.getD j (0, 0, 0, 0)).2.2.2) ++
        List.replicate (lenzout - ztemp.length) OutRow.blank)
  else
    .ok (List.replicate lenzout OutRow.blank)

/-- Modelled from the spec: `run` in `com=True, mah=False` mode as claim C1
describes it, i.e. with the COM mass argument equal to the broadcast `Mi`. -/
noncomputable def runClaimC1 (E : Oracles) (C : CosmoP) (zi0 Mi0 : List ℝ)
    (z : Option (List ℝ)) : RunOut :=
  match checkinput zi0 Mi0 z with
  | none => .sentinel
  | some (zi, Mi, z2, _, _, lenzout) =>
    match exceptMap (fun p => runSampleRowsClaimC1 E C lenzout z2 p.1 p.2)
        (zi.zip Mi) with
    | .error _ => .raised
    | .ok tbl => .table tbl

/-- A Python dict of float-valued cosmological parameters, as a key-value list
(booleans stored as 0/1). -/
abbrev Dict := List (String × ℝ)

/-- Key membership, `k in d.keys()`. -/
def hasKey (d : Dict) (k : String) : Bool := d.any fun p => p.1 == k

/-- Value lookup `d[k]` (0 for a missing key; the source only looks up
present keys). -/
def dlookup (d : Dict) (k : String) : ℝ :=
  match d.find? (fun p => p.1 == k) with
  | some p => p.2
  | none => 0

/-- Model of `d.update({k: v})`: replace the value of the key in place (dict keys are
unique, so the first occurrence is the occurrence), or append the new key. -/
def dupdate : Dict → String → ℝ → Dict
  | [], k, v => [(k, v)]
  | p :: d, k, v => if p.1 == k then (k, v) :: d else p :: dupdate d k v

/-- Model of `_delta_sigma(**cosmo)` (commah.py:154-179), with cosmolopy's
`radius_to_mass(8, **cosmo)` as an oracle. -/
noncomputable def delta_sigma (radius_to_mass8 : Dict → ℝ) (cosmo : Dict) : ℝ :=
  (0.796 / dlookup cosmo "sigma_8") *
    (radius_to_mass8 cosmo / 2.5e14) ^ ((dlookup cosmo "n" - 0.963) / 6)

/-- Modelled from the spec: `cp.distance.set_omega_k_0` (external cosmolopy
code, not under src), described by the spec as enforcing flatness by setting
the curvature density to zero. -/
def set_omega_k_0_spec (c : Dict) : Dict := dupdate c "omega_k_0" 0

/-- Model of `getcosmo(cosmology)` (commah.py:72-115), dictionary branch: the caller
passes a parameter dict.  In Python `cosmo = cosmology` aliases the caller's
object and every `cosmo.update(...)` below mutates it in place; the functional
model returns the final state of that shared object.  `getAscaling` with
`newcosmo=True` is `887 * _delta_sigma(**cosmo)` (commah.py:213-215);
`wmap5keys` stands for `cg.WMAP5_mean().keys()` (external data table). -/
noncomputable def getcosmo_dict (radius_to_mass8 : Dict → ℝ) (set_omega_k_0 : Dict → Dict)
    (wmap5keys : List String) (cosmology : Dict) : Dict :=
  let c1 := if hasKey cosmology "A_scaling" then cosmology
    else dupdate cosmology "A_scaling" (887 * delta_sigma radius_to_mass8 cosmology)
  let c2 := wmap5keys.foldl (fun c pname => if hasKey c pname then c else dupdate c pname 0) c1
  let c3 := set_omega_k_0 c2
  if 0 < dlookup c3 "omega_b_0" then dupdate c3 "baryonic_effects" 1
  else dupdate c3 "baryonic_effects" 0

/-- A generic oracle assignment: unit quadrature, identity mass-to-radius,
unit mass variance, and a root finder that always reports the root 5. -/
noncomputable def Etriv : Oracles :=
  ⟨fun _ _ _ => 1, fun M => M, fun _ => 1, fun _ _ _ => .ok 5⟩

/-- An oracle assignment whose root finder degenerates to the root 0. -/
noncomputable def Ezero : Oracles :=
  ⟨fun _ _ _ => 1, fun M => M, fun _ => 1, fun _ _ _ => .ok 0⟩

/-- A flat concordance-like cosmology record. -/
noncomputable def Ctriv : CosmoP := ⟨1/4, 3/4, 0.7, 880⟩

/-- An Einstein-de-Sitter-like record used for the C1 counterexample. -/
noncomputable def cexCos : CosmoP := ⟨1, 0, 0.7, 900⟩

/-- The oracle assignment of the C1 counterexample: constant quadrature 2/3
(making the growth derivative vanish at z = 0), identity mass-to-radius, a
mass variance separating radius 1 from every other radius, and a root finder
reporting 5. -/
noncomputable def cexExt : Oracles :=
  ⟨fun _ _ _ => 2/3, fun M => M, fun r => if r = 1 then 1 else 3, fun _ _ _ => .ok 5⟩

/-- The key list of `cg.WMAP5_mean()` (the external cosmology table). -/
def wkeys9 : List String :=
  ["N_nu", "Y_He", "h", "n", "omega_M_0", "omega_b_0", "omega_lambda_0",
   "omega_n_0", "sigma_8", "t_0", "tau", "z_reion"]

/-- A caller-supplied custom cosmology dict without `A_scaling`. -/
noncomputable def d9 : Dict :=
  [("omega_M_0", 0.25), ("omega_lambda_0", 0.75), ("omega_b_0", 0.05),
   ("h", 0.7), ("n", 0.96), ("sigma_8", 0.8)]

/-- A trivial radius-to-mass oracle for the C9 instances. -/
noncomputable def rtm9 : Dict → ℝ := fun _ => 2.5e14

/-! ## Theorems -/

/-- The ambiguous-size rejection of `_checkinput` happens exactly when both
inputs are sequences of length greater than one with unequal lengths. -/
theorem checkinput_eq_none_iff (zi Mi : List ℝ) (z : Option (List ℝ)) :
    checkinput zi Mi z = none ↔
      (1 < zi.length ∧ 1 < Mi.length ∧ zi.length ≠ Mi.length) := by
  unfold checkinput
  split <;> simp_all

/-- Claim C4: input reconciliation broadcasts a length-1 input over the other:
for `zi=[0,1]` with scalar `Mi=1e12` it returns `Mi=[1e12,1e12]`; for scalar
`zi=0` with `Mi=[1e10,1e12]` it returns `zi=[0,0]`; and for `zi=[0,1]` with
`Mi=[1e10,1e11,1e12]` (both lengths > 1 and unequal) it fails with the
ambiguous-input error (`none`) instead of returning aligned arrays. -/
theorem checkinput_broadcast_examples :
    checkinput [0, 1] [1e12] none =
      some ([0, 1], [1e12, 1e12], none, 2, 2, 1) ∧
    checkinput [0] [1e10, 1e12] none =
      some ([0, 0], [1e10, 1e12], none, 2, 2, 1) ∧
    checkinput [0, 1] [1e10, 1e11, 1e12] none = none :=
  ⟨rfl, rfl, rfl⟩

/-- Claim C5: for every target redshift `z`, initial redshift `zi` and initial
mass `Mi`, with the indices `(a_tilde, b_tilde)` computed at `(zi, Mi)`, the
accretion integrator returns
`Mz = Mi*(1+z-zi)^a_tilde * exp(b_tilde*(z-zi))` and
`dMdt = 71.6*(Mz/1e12)*(h/0.7)*(-a_tilde/(1+z-zi) - b_tilde)*(1+z)*
sqrt(omega_M_0*(1+z)^3 + omega_lambda_0)`. -/
theorem acc_rate_formulas (E : Oracles) (C : CosmoP) (z zi Mi : ℝ) :
    acc_rate E C z zi Mi =
      (71.6 * (Mi * (1 + z - zi) ^ (calc_ab E C zi Mi).1 *
          Real.exp ((calc_ab E C zi Mi).2 * (z - zi)) / 1e12) * (C.h / 0.7) *
        (-(calc_ab E C zi Mi).1 / (1 + z - zi) - (calc_ab E C zi Mi).2) * (1 + z) *
        Real.sqrt (C.omega_M_0 * (1 + z) ^ 3 + C.omega_lambda_0),
       Mi * (1 + z - zi) ^ (calc_ab E C zi Mi).1 *
         Real.exp ((calc_ab E C zi Mi).2 * (z - zi))) := rfl

/-- Claim C6: for every flat cosmology record (the resolver's flatness
invariant) with a nonzero growth quadrature at 0, the normalized growth
factor at redshift zero equals 1. -/
theorem growthfactor_zero_norm_one (E : Oracles) (C : CosmoP)
    (hflat : C.omega_M_0 + C.omega_lambda_0 = 1)
    (hI : int_growth E C 0 ≠ 0) :
    growthfactor E C 0 true = 1 := by
  unfold growthfactor
  have h1 : C.omega_M_0 * (1 + 0) ^ 3 + C.omega_lambda_0 = 1 := by
    rw [show ((1 : ℝ) + 0) ^ 3 = 1 by norm_num, mul_one, hflat]
  rw [h1, Real.sqrt_one]
  simp [div_self hI]

/-- Witness for C6 at a concrete flat record and unit quadrature oracle. -/
theorem growthfactor_zero_norm_one_witness :
    (Ctriv.omega_M_0 + Ctriv.omega_lambda_0 = 1 ∧ int_growth Etriv Ctriv 0 ≠ 0) ∧
      growthfactor Etriv Ctriv 0 true = 1 :=
  ⟨⟨by norm_num [Ctriv], by norm_num [int_growth, Etriv]⟩,
    growthfactor_zero_norm_one Etriv Ctriv (by norm_num [Ctriv])
      (by norm_num [int_growth, Etriv])⟩

/-- Claim C3: `run` returns the sentinel (instead of raising) in exactly the
two structural-error cases: both `mah=False` and `com=False`, or `zi` and `Mi`
both sequences of length greater than one with unequal lengths; in all other
cases the result is a dataset or a propagated exception, and in both sentinel
cases the sample loop is never reached. -/
theorem run_sentinel_iff (E : Oracles) (C : CosmoP) (zi Mi : List ℝ)
    (z : Option (List ℝ)) (com mah : Bool) :
    run E C zi Mi z com mah = RunOut.sentinel ↔
      ((com = false ∧ mah = false) ∨
        (1 < zi.length ∧ 1 < Mi.length ∧ zi.length ≠ Mi.length)) := by
  rcases com with _ | _ <;> rcases mah with _ | _
  · simp [run]
  all_goals
    rcases h : checkinput zi Mi z with _ | res
    · simp only [run, Bool.not_true, Bool.not_false, Bool.and_false, Bool.false_and,
        Bool.and_true, Bool.true_and, Bool.and_self, if_false, h]
      constructor
      · intro _
        exact Or.inr ((checkinput_eq_none_iff zi Mi z).mp h)
      · intro _
        rfl
    · have hnot : ¬(1 < zi.length ∧ 1 < Mi.length ∧ zi.length ≠ Mi.length) := by
        intro hc
        rw [← checkinput_eq_none_iff zi Mi z] at hc
        rw [h] at hc
        exact Option.noConfusion hc
      obtain ⟨za, Ma, z2, a1, a2, lz⟩ := res
      simp only [run, Bool.not_true, Bool.not_false, Bool.and_false, Bool.false_and,
        Bool.and_true, Bool.true_and, Bool.and_self, if_false, h]
      constructor
      · intro hcontra
        rw [if_neg Bool.false_ne_true] at hcontra
        split at hcontra <;> simp at hcontra
      · rintro (⟨hc, hm⟩ | hamb)
        · simp_all
        · exact absurd hamb hnot

/-- When a fallible loop completes without raising, every produced element
comes from applying the body to some input element. -/
theorem exceptMap_ok_mem {α β ε : Type} (f : α → Except ε β) :
    ∀ (l : List α) (L : List β), exceptMap f l = .ok L →
      ∀ b ∈ L, ∃ a ∈ l, f a = .ok b := by
  intro l
  induction l with
  | nil =>
    intro L hL b hb
    simp only [exceptMap] at hL
    injection hL with h
    subst h
    cases hb
  | cons a t ih =>
    intro L hL b hb
    simp only [exceptMap] at hL
    rcases hfa : f a with e | bb <;> rw [hfa] at hL
    · cases hL
    · rcases hrest : exceptMap f t with e2 | bs <;> rw [hrest] at hL
      · cases hL
      · injection hL with h
        subst h
        rcases List.mem_cons.mp hb with h1 | h2
        · subst h1
          exact ⟨a, List.mem_cons_self a t, hfa⟩
        · obtain ⟨x, hx, hfx⟩ := ih bs hrest b h2
          exact ⟨x, List.mem_cons_of_mem a hx, hfx⟩

/-- Unfolding of one COM iteration when brentq reports a root. -/
theorem COM_row_brentq_ok (E : Oracles) (C : CosmoP) (zval Mval c : ℝ)
    (hb : E.brentq (fun x => minimize_c x zval (calc_ab E C zval Mval).1
      (calc_ab E C zval Mval).2 C.A_scaling C.omega_M_0 C.omega_lambda_0) 2 1000 =
      .ok c) :
    COM_row E C zval Mval =
      if |c - 0| ≤ 1e-8 + 1e-5 * |(0 : ℝ)|
      then .ok ((-1 : ℝ), (-1 : ℝ), (-1 : ℝ), (-1 : ℝ))
      else .ok (c, E.sigma_r (E.mass_to_radius Mval),
        1.686 / (E.sigma_r (E.mass_to_radius Mval) * growthfactor E C zval true),
        formationz c zval C.A_scaling C.omega_M_0 C.omega_lambda_0) := by
  simp only [COM_row]
  rw [hb]

/-- Unfolding of one COM iteration when brentq raises. -/
theorem COM_row_brentq_error (E : Oracles) (C : CosmoP) (zval Mval : ℝ) (e : Unit)
    (hb : E.brentq (fun x => minimize_c x zval (calc_ab E C zval Mval).1
      (calc_ab E C zval Mval).2 C.A_scaling C.omega_M_0 C.omega_lambda_0) 2 1000 =
      .error e) :
    COM_row E C zval Mval = .error e := by
  simp only [COM_row]
  rw [hb]

/-- The COM loop, when brentq reports a root for every row: each row becomes
the sentinel or the success tuple according to the closeness test. -/
theorem exceptMap_COM_row_ok (E : Oracles) (C : CosmoP) (l : List (ℝ × ℝ))
    (r : ℝ × ℝ → ℝ)
    (hok : ∀ p ∈ l, E.brentq (fun c => minimize_c c p.1 (calc_ab E C p.1 p.2).1
      (calc_ab E C p.1 p.2).2 C.A_scaling C.omega_M_0 C.omega_lambda_0) 2 1000 =
      .ok (r p)) :
    exceptMap (fun p => COM_row E C p.1 p.2) l = .ok (l.map fun p =>
      if |r p - 0| ≤ 1e-8 + 1e-5 * |(0 : ℝ)|
      then ((-1 : ℝ), (-1 : ℝ), (-1 : ℝ), (-1 : ℝ))
      else (r p, E.sigma_r (E.mass_to_radius p.2),
        1.686 / (E.sigma_r (E.mass_to_radius p.2) * growthfactor E C p.1 true),
        formationz (r p) p.1 C.A_scaling C.omega_M_0 C.omega_lambda_0)) := by
  induction l with
  | nil => rfl
  | cons a t ih =>
    have ha := hok a (List.mem_cons_self a t)
    have hrow : COM_row E C a.1 a.2 = .ok
        (if |r a - 0| ≤ 1e-8 + 1e-5 * |(0 : ℝ)|
        then ((-1 : ℝ), (-1 : ℝ), (-1 : ℝ), (-1 : ℝ))
        else (r a, E.sigma_r (E.mass_to_radius a.2),
          1.686 / (E.sigma_r (E.mass_to_radius a.2) * growthfactor E C a.1 true),
          formationz (r a) a.1 C.A_scaling C.omega_M_0 C.omega_lambda_0)) := by
      rw [COM_row_brentq_ok E C a.1 a.2 (r a) ha]
      exact (apply_ite Except.ok _ _ _).symm
    simp only [exceptMap, List.map_cons, hrow,
      ih (fun p hp => hok p (List.mem_cons_of_mem a hp))]

/-- Claim C2: in a COM call for which every row's bracketed root-find returns
a root, a row whose root is close to 0 (`np.isclose(c, 0)`) is reported with
the sentinel values c = sig = nu = zf = -1, no exception is raised for that
row, and all remaining rows are computed normally (sentinel or success
according to their own root). -/
theorem COM_sentinel_rows (E : Oracles) (C : CosmoP) (z M : List ℝ)
    (r : ℝ × ℝ → ℝ)
    (hok : ∀ p ∈ z.zip M,
      E.brentq (fun c => minimize_c c p.1 (calc_ab E C p.1 p.2).1
        (calc_ab E C p.1 p.2).2 C.A_scaling C.omega_M_0 C.omega_lambda_0) 2 1000 =
        .ok (r p)) :
    COM E C z M = .ok ((z.zip M).map fun p =>
      if |r p - 0| ≤ 1e-8 + 1e-5 * |(0 : ℝ)|
      then ((-1 : ℝ), (-1 : ℝ), (-1 : ℝ), (-1 : ℝ))
      else (r p, E.sigma_r (E.mass_to_radius p.2),
        1.686 / (E.sigma_r (E.mass_to_radius p.2) * growthfactor E C p.1 true),
        formationz (r p) p.1 C.A_scaling C.omega_M_0 C.omega_lambda_0)) :=
  exceptMap_COM_row_ok E C (z.zip M) r hok

/-- Witness for C2: with a degenerate root-finder (root 0), the single row of
a COM call is reported with the sentinel values and no exception. -/
theorem COM_sentinel_rows_witness :
    (Ezero.brentq (fun c => minimize_c c 1 (calc_ab Ezero Ctriv 1 1).1
        (calc_ab Ezero Ctriv 1 1).2 Ctriv.A_scaling Ctriv.omega_M_0
        Ctriv.omega_lambda_0) 2 1000 = .ok 0) ∧
      COM Ezero Ctriv [1] [1] = .ok [((-1 : ℝ), (-1 : ℝ), (-1 : ℝ), (-1 : ℝ))] := by
  constructor
  · rfl
  · have h := COM_sentinel_rows Ezero Ctriv [1] [1] (fun _ => 0) (fun p _ => rfl)
    rw [h]
    norm_num

/-- The numpy closeness test rejects the root 5. -/
theorem not_isclose_five : ¬(|(5 : ℝ) - 0| ≤ 1e-8 + 1e-5 * |(0 : ℝ)|) := by
  rw [sub_zero, abs_zero, mul_zero, add_zero,
    abs_of_pos (by norm_num : (0 : ℝ) < 5)]
  norm_num

/-- Claim C10: under brentq's bracket contract (a reported root lies in the
bracket), every row of a successful COM call is a success row whose
concentration lies in [2, 1000]; the degenerate-root check can never fire, so
the sentinel branch assigning c = sig = nu = zf = -1 is unreachable (no row
equals the sentinel row), and a failing root-find instead propagates as an
exception out of COM. -/
theorem COM_bracket_no_sentinel (E : Oracles) (C : CosmoP)
    (hbr : ∀ f c, E.brentq f 2 1000 = .ok c → 2 ≤ c ∧ c ≤ 1000)
    (z M : List ℝ) (L : List (ℝ × ℝ × ℝ × ℝ)) (hL : COM E C z M = .ok L) :
    ∀ p ∈ L, (2 ≤ p.1 ∧ p.1 ≤ 1000) ∧ p ≠ ((-1 : ℝ), (-1 : ℝ), (-1 : ℝ), (-1 : ℝ)) := by
  intro p hp
  obtain ⟨a, _, hfa⟩ := exceptMap_ok_mem _ (z.zip M) L hL p hp
  rcases hb : E.brentq (fun x => minimize_c x a.1 (calc_ab E C a.1 a.2).1
      (calc_ab E C a.1 a.2).2 C.A_scaling C.omega_M_0 C.omega_lambda_0) 2 1000
    with e | c
  · rw [COM_row_brentq_error E C a.1 a.2 e hb] at hfa
    cases hfa
  · rw [COM_row_brentq_ok E C a.1 a.2 c hb] at hfa
    obtain ⟨h2c, hc1000⟩ := hbr _ c hb
    have hcond : ¬(|c - 0| ≤ 1e-8 + 1e-5 * |(0 : ℝ)|) := by
      intro hcon
      rw [sub_zero, abs_zero, mul_zero, add_zero] at hcon
      have hc8 : c ≤ 1e-8 := le_trans (le_abs_self c) hcon
      norm_num at hc8
      linarith
    rw [if_neg hcond] at hfa
    injection hfa with h
    subst h
    refine ⟨⟨h2c, hc1000⟩, ?_⟩
    intro hsent
    have hc : c = -1 := congrArg Prod.fst hsent
    linarith

/-- Witness for C10 at concrete lists and a bracket-respecting root finder. -/
theorem COM_bracket_no_sentinel_witness :
    ((2 : ℝ) ≤ 5 ∧ (5 : ℝ) ≤ 1000) ∧
      ((5 : ℝ), (1 : ℝ), 1.686 / (1 * growthfactor Etriv Ctriv 0 true),
        formationz 5 0 Ctriv.A_scaling Ctriv.omega_M_0 Ctriv.omega_lambda_0) ≠
        ((-1 : ℝ), (-1 : ℝ), (-1 : ℝ), (-1 : ℝ)) := by
  have hrow : COM_row Etriv Ctriv 0 1 = .ok ((5 : ℝ), (1 : ℝ),
      1.686 / (1 * growthfactor Etriv Ctriv 0 true),
      formationz 5 0 Ctriv.A_scaling Ctriv.omega_M_0 Ctriv.omega_lambda_0) := by
    rw [COM_row_brentq_ok Etriv Ctriv 0 1 5 rfl, if_neg not_isclose_five]
    norm_num [Etriv]
  have hL : COM Etriv Ctriv [0] [1] = .ok [((5 : ℝ), (1 : ℝ),
      1.686 / (1 * growthfactor Etriv Ctriv 0 true),
      formationz 5 0 Ctriv.A_scaling Ctriv.omega_M_0 Ctriv.omega_lambda_0)] := by
    simp only [COM, List.zip_cons_cons, List.zip_nil_right, exceptMap, hrow]
  exact COM_bracket_no_sentinel Etriv Ctriv
    (by
      intro f c h
      simp only [Etriv] at h
      injection h with h2
      subst h2
      norm_num)
    [0] [1] _ hL _ (List.mem_singleton_self _)

/-- Claim C7: MAH halo mass is non-increasing in output redshift.  For a
sample (zi, Mi) whose growth-rate indices satisfy the physical regime
guaranteed by the real collaborators (`b_tilde <= 0`, i.e. the mass-variance
difference is nonnegative, and `a_tilde <= -b_tilde`, i.e. the growth factor
is non-increasing at zi), the masses returned by MAH for targets
z2 > z1 >= zi satisfy Mz(z1) >= Mz(z2). -/
theorem MAH_Mz_antitone (E : Oracles) (C : CosmoP) (zi Mi z1 z2 : ℝ)
    (hMi : 0 ≤ Mi) (hz1 : zi ≤ z1) (hz12 : z1 < z2)
    (hb : (calc_ab E C zi Mi).2 ≤ 0)
    (hab : (calc_ab E C zi Mi).1 ≤ -(calc_ab E C zi Mi).2) :
    (MAH E C [z1, z2] zi Mi).2.getD 1 0 ≤ (MAH E C [z1, z2] zi Mi).2.getD 0 0 := by
  show Mi * (1 + z2 - zi) ^ (calc_ab E C zi Mi).1 *
      Real.exp ((calc_ab E C zi Mi).2 * (z2 - zi)) ≤
    Mi * (1 + z1 - zi) ^ (calc_ab E C zi Mi).1 *
      Real.exp ((calc_ab E C zi Mi).2 * (z1 - zi))
  set a := (calc_ab E C zi Mi).1 with hadef
  set b := (calc_ab E C zi Mi).2 with hbdef
  have h1 : (0 : ℝ) < 1 + z1 - zi := by linarith
  have h2 : (0 : ℝ) < 1 + z2 - zi := by linarith
  have hL : Real.log (1 + z1 - zi) ≤ Real.log (1 + z2 - zi) := by
    gcongr
  have hdiff : Real.log (1 + z2 - zi) - Real.log (1 + z1 - zi) ≤ z2 - z1 := by
    have hq : (0 : ℝ) < (1 + z2 - zi) / (1 + z1 - zi) := div_pos h2 h1
    have hlog := Real.log_le_sub_one_of_pos hq
    rw [Real.log_div (ne_of_gt h2) (ne_of_gt h1)] at hlog
    have h11 : (1 : ℝ) ≤ 1 + z1 - zi := by linarith
    have hfrac : (1 + z2 - zi) / (1 + z1 - zi) - 1 ≤ z2 - z1 := by
      rw [div_sub_one (ne_of_gt h1)]
      have hnum : 1 + z2 - zi - (1 + z1 - zi) = z2 - z1 := by ring
      rw [hnum]
      exact div_le_self (by linarith) h11
    linarith
  have key : a * (Real.log (1 + z2 - zi) - Real.log (1 + z1 - zi)) ≤
      (-b) * (z2 - z1) := by
    rcases le_or_lt a 0 with haneg | hapos
    · have t1 : a * (Real.log (1 + z2 - zi) - Real.log (1 + z1 - zi)) ≤
          0 * (Real.log (1 + z2 - zi) - Real.log (1 + z1 - zi)) :=
        mul_le_mul_of_nonneg_right haneg (by linarith)
      have t2 : (0 : ℝ) ≤ (-b) * (z2 - z1) :=
        mul_nonneg (by linarith) (by linarith)
      linarith
    · have t1 : a * (Real.log (1 + z2 - zi) - Real.log (1 + z1 - zi)) ≤
          a * (z2 - z1) := mul_le_mul_of_nonneg_left hdiff (le_of_lt hapos)
      have t2 : a * (z2 - z1) ≤ (-b) * (z2 - z1) :=
        mul_le_mul_of_nonneg_right hab (by linarith)
      linarith
  have hineq : Real.log (1 + z2 - zi) * a + b * (z2 - zi) ≤
      Real.log (1 + z1 - zi) * a + b * (z1 - zi) := by
    nlinarith [key]
  have e1 : (1 + z1 - zi) ^ a * Real.exp (b * (z1 - zi)) =
      Real.exp (Real.log (1 + z1 - zi) * a + b * (z1 - zi)) := by
    rw [Real.rpow_def_of_pos h1, ← Real.exp_add]
  have e2 : (1 + z2 - zi) ^ a * Real.exp (b * (z2 - zi)) =
      Real.exp (Real.log (1 + z2 - zi) * a + b * (z2 - zi)) := by
    rw [Real.rpow_def_of_pos h2, ← Real.exp_add]
  rw [mul_assoc, mul_assoc, e1, e2]
  exact mul_le_mul_of_nonneg_left (Real.exp_le_exp.mpr hineq) hMi

/-- Witness for C7: with a constant mass-variance oracle the indices are
(0, 0), the hypotheses hold, and the MAH mass is non-increasing from z=0
to z=1. -/
theorem MAH_Mz_antitone_witness :
    ((0 : ℝ) ≤ 1 ∧ (0 : ℝ) ≤ 0 ∧ (0 : ℝ) < 1 ∧
      (calc_ab Etriv Ctriv 0 1).2 ≤ 0 ∧
      (calc_ab Etriv Ctriv 0 1).1 ≤ -(calc_ab Etriv Ctriv 0 1).2) ∧
      (MAH Etriv Ctriv [0, 1] 0 1).2.getD 1 0 ≤ (MAH Etriv Ctriv [0, 1] 0 1).2.getD 0 0 := by
  have hcb : (calc_ab Etriv Ctriv 0 1).2 = 0 := by
    simp only [calc_ab, Etriv]
    norm_num [Real.zero_rpow]
  have hca : (calc_ab Etriv Ctriv 0 1).1 = 0 := by
    simp only [calc_ab, Etriv]
    norm_num [Real.zero_rpow]
  refine ⟨⟨by norm_num, le_refl 0, by norm_num, by rw [hcb], by rw [hca, hcb]; norm_num⟩, ?_⟩
  exact MAH_Mz_antitone Etriv Ctriv 0 1 0 1 (by norm_num) (le_refl 0) (by norm_num)
    (by rw [hcb]) (by rw [hca, hcb]; norm_num)

/-- A member of a written-cells-plus-blank-padding row list is either a blank
cell or one of the written cells. -/
theorem mem_map_range_append_replicate {n k : Nat} {g : Nat → OutRow} {row : OutRow}
    (h : row ∈ (List.range n).map g ++ List.replicate k OutRow.blank) :
    row = OutRow.blank ∨ ∃ j, j < n ∧ row = g j := by
  rcases List.mem_append.mp h with h1 | h2
  · obtain ⟨j, hj, hrow⟩ := List.mem_map.mp h1
    exact Or.inr ⟨j, List.mem_range.mp hj, hrow.symm⟩
  · exact Or.inl (List.eq_of_mem_replicate h2)

/-- Every in-range element of the filtered target list is at least `zval`. -/
theorem getD_filter_le (zval : ℝ) (zl : List ℝ) (j : Nat)
    (hj : j < (zl.filter fun x => decide (zval ≤ x)).length) :
    zval ≤ (zl.filter fun x => decide (zval ≤ x)).getD j 0 := by
  have hmem : (zl.filter fun x => decide (zval ≤ x)).getD j 0 ∈
      zl.filter fun x => decide (zval ≤ x) := by
    rw [List.getD_eq_getElem _ _ hj]
    exact List.getElem_mem hj
  exact of_decide_eq_true (List.mem_filter.mp hmem).2

/-- Claim C8: the run loop writes cells for a sample (zi, Mi) only at the
requested output redshifts z >= zi (`ztemp = z[z >= zi]`); requested
redshifts below zi are silently skipped, and a sample for which every
requested redshift is below zi keeps its whole preallocated row blank without
raising an error. -/
theorem runSampleRows_targets (E : Oracles) (C : CosmoP) (com mah : Bool)
    (lenzout : Nat) (zl : List ℝ) (zval Mval : ℝ) (rows : List OutRow)
    (hok : runSampleRows E C com mah lenzout (some zl) zval Mval = .ok rows) :
    (∀ row ∈ rows, row ≠ OutRow.blank → zval ≤ row.zout) ∧
    ((∀ x ∈ zl, x < zval) → rows = List.replicate lenzout OutRow.blank) := by
  constructor
  · intro row hrow hnb
    simp only [runSampleRows] at hok
    split at hok
    · split at hok
      · split at hok
        · cases hok
        · injection hok with h
          subst h
          rcases mem_map_range_append_replicate hrow with hblank | ⟨j, hj, hrowj⟩
          · exact absurd hblank hnb
          · subst hrowj
            exact getD_filter_le zval zl j hj
      · split at hok
        · injection hok with h
          subst h
          rcases mem_map_range_append_replicate hrow with hblank | ⟨j, hj, hrowj⟩
          · exact absurd hblank hnb
          · subst hrowj
            exact getD_filter_le zval zl j hj
        · split at hok
          · cases hok
          · injection hok with h
            subst h
            rcases mem_map_range_append_replicate hrow with hblank | ⟨j, hj, hrowj⟩
            · exact absurd hblank hnb
            · subst hrowj
              exact getD_filter_le zval zl j hj
    · injection hok with h
      subst h
      exact absurd (List.eq_of_mem_replicate hrow) hnb
  · intro hall
    have hfilter : (zl.filter fun x => decide (zval ≤ x)) = [] := by
      apply List.filter_eq_nil_iff.mpr
      intro a ha
      simp only [decide_eq_true_eq]
      exact not_le.mpr (hall a ha)
    simp only [runSampleRows, hfilter] at hok
    rw [if_neg (by simp)] at hok
    injection hok with h
    exact h.symm

/-- Witness for C8: a sample at zi = 5 with the single requested output
redshift 0 keeps its preallocated row blank and does not raise. -/
theorem runSampleRows_targets_witness :
    (0 : ℝ) < 5 ∧
      runSampleRows Etriv Ctriv true true 1 (some [0]) 5 1 =
        .ok (List.replicate 1 OutRow.blank) := by
  have hf : (List.filter (fun x => decide ((5 : ℝ) ≤ x)) [(0 : ℝ)]) = [] := by
    apply List.filter_eq_nil_iff.mpr
    intro a ha
    simp only [List.mem_singleton] at ha
    subst ha
    simp only [decide_eq_true_eq]
    norm_num
  have hok : runSampleRows Etriv Ctriv true true 1 (some [0]) 5 1 =
      .ok (List.replicate 1 OutRow.blank) := by
    simp only [runSampleRows, hf]
    rw [if_neg (by simp)]
  have h2 := (runSampleRows_targets Etriv Ctriv true true 1 [0] 5 1
      (List.replicate 1 OutRow.blank) hok).2
    (by
      intro x hx
      simp only [List.mem_singleton] at hx
      subst hx
      norm_num)
  exact ⟨by norm_num, hok.trans (by rw [h2])⟩

/-- Updating a key makes it present. -/
theorem hasKey_dupdate_self (d : Dict) (k : String) (v : ℝ) :
    hasKey (dupdate d k v) k = true := by
  induction d with
  | nil =>
    simp [dupdate, hasKey]
  | cons p d ih =>
    by_cases hp : (p.1 == k) = true
    · simp [dupdate, hasKey, hp]
    · simp only [dupdate, if_neg hp, hasKey, List.any_cons]
      simp only [hasKey] at ih
      rw [ih]
      simp

/-- Updating any key preserves the presence of every present key. -/
theorem hasKey_dupdate_other (d : Dict) (k k2 : String) (v : ℝ)
    (h : hasKey d k = true) : hasKey (dupdate d k2 v) k = true := by
  induction d with
  | nil => simp [hasKey] at h
  | cons p d ih =>
    simp only [hasKey, List.any_cons, Bool.or_eq_true] at h
    by_cases hp : (p.1 == k2) = true
    · simp only [dupdate, if_pos hp, hasKey, List.any_cons, Bool.or_eq_true]
      rcases h with h1 | h2
      · left
        have e1 : p.1 = k := by simpa using h1
        have e2 : p.1 = k2 := by simpa using hp
        simp [← e1, ← e2]
      · right
        exact h2
    · simp only [dupdate, if_neg hp, hasKey, List.any_cons, Bool.or_eq_true]
      rcases h with h1 | h2
      · left; exact h1
      · right
        simpa [hasKey] using ih (by simpa [hasKey] using h2)

/-- Updating a different key does not change a lookup. -/
theorem dlookup_dupdate_other (d : Dict) (k k2 : String) (v : ℝ)
    (hne : k ≠ k2) : dlookup (dupdate d k2 v) k = dlookup d k := by
  have hk2k : (k2 == k) = false := beq_eq_false_iff_ne.mpr (Ne.symm hne)
  induction d with
  | nil =>
    simp [dupdate, dlookup, List.find?, hk2k]
  | cons p d ih =>
    by_cases hp : (p.1 == k2) = true
    · have e2 : p.1 = k2 := by simpa using hp
      have hpk : (p.1 == k) = false := by rw [e2]; exact hk2k
      simp only [dupdate]
      rw [if_pos hp]
      simp [dlookup, List.find?_cons, hk2k, hpk]
    · simp only [dupdate]
      rw [if_neg hp]
      by_cases hpk : (p.1 == k) = true
      · simp [dlookup, List.find?_cons, hpk]
      · have hpk2 : (p.1 == k) = false := by simpa using hpk
        simp only [dlookup, List.find?_cons, hpk2] at ih ⊢
        exact ih

/-- The zero-default fill loop of `getcosmo` preserves present keys. -/
theorem foldl_fill_hasKey (keys : List String) (k : String) :
    ∀ c : Dict, hasKey c k = true →
      hasKey (keys.foldl (fun c pname =>
        if hasKey c pname then c else dupdate c pname 0) c) k = true := by
  induction keys with
  | nil => intro c hc; exact hc
  | cons a t ih =>
    intro c hc
    simp only [List.foldl_cons]
    by_cases hA : hasKey c a = true
    · rw [if_pos hA]
      exact ih c hc
    · rw [if_neg hA]
      exact ih _ (hasKey_dupdate_other c k a 0 hc)

/-- The zero-default fill loop of `getcosmo` does not change the value of a
present key. -/
theorem foldl_fill_dlookup (keys : List String) (k : String) :
    ∀ c : Dict, hasKey c k = true →
      dlookup (keys.foldl (fun c pname =>
        if hasKey c pname then c else dupdate c pname 0) c) k = dlookup c k := by
  induction keys with
  | nil => intro c _; rfl
  | cons a t ih =>
    intro c hc
    simp only [List.foldl_cons]
    by_cases hA : hasKey c a = true
    · rw [if_pos hA]
      exact ih c hc
    · rw [if_neg hA]
      have hka : k ≠ a := by
        intro he
        rw [he] at hc
        exact hA hc
      rw [ih _ (hasKey_dupdate_other c k a 0 hc)]
      exact dlookup_dupdate_other c k a 0 hka

/-- Counterexample for claim C9: the resolver does not consume the
caller-supplied dict read-only.  For the concrete custom dict `d9` (which has
no `A_scaling` key), the object `getcosmo` returns — which in Python is the
very dict the caller passed, since `cosmo = cosmology` aliases it and
`dict.update` mutates in place — has gained the key `A_scaling`, so keys were
added to the caller's object. -/
theorem getcosmo_mutates_caller_dict :
    hasKey d9 "A_scaling" = false ∧
      hasKey (getcosmo_dict rtm9 set_omega_k_0_spec wkeys9 d9) "A_scaling" = true ∧
      getcosmo_dict rtm9 set_omega_k_0_spec wkeys9 d9 ≠ d9 := by
  have h1 : hasKey d9 "A_scaling" = false := by decide
  have hsel : (if hasKey d9 "A_scaling" then d9
      else dupdate d9 "A_scaling" (887 * delta_sigma rtm9 d9)) =
      dupdate d9 "A_scaling" (887 * delta_sigma rtm9 d9) := by
    rw [h1]
    simp
  have h2 : hasKey (getcosmo_dict rtm9 set_omega_k_0_spec wkeys9 d9) "A_scaling" = true := by
    simp only [getcosmo_dict, hsel]
    split <;>
    · apply hasKey_dupdate_other
      unfold set_omega_k_0_spec
      apply hasKey_dupdate_other
      apply foldl_fill_hasKey
      apply hasKey_dupdate_self
  refine ⟨h1, h2, ?_⟩
  intro heq
  rw [heq, h1] at h2
  exact Bool.false_ne_true h2

/-- Amended claim C9 (as far as the counterexample forces): the cosmology
record is built once by the resolver, which fills missing bookkeeping keys by
mutating the caller's dict in place (A_scaling, zero defaults, omega_k_0,
baryonic_effects); the value of every key the caller supplied — other than
the overwritten bookkeeping keys omega_k_0 and baryonic_effects — is left
unchanged, and after resolution the record is consumed read-only by the
numeric components (which take it as an immutable parameter). -/
theorem getcosmo_preserves_caller_values (rtm : Dict → ℝ) (wkeys : List String)
    (d : Dict) (k : String) (hk : hasKey d k = true)
    (hk1 : k ≠ "omega_k_0") (hk2 : k ≠ "baryonic_effects") :
    dlookup (getcosmo_dict rtm set_omega_k_0_spec wkeys d) k = dlookup d k := by
  simp only [getcosmo_dict]
  split
  · split <;>
    · rw [dlookup_dupdate_other _ _ _ _ hk2]
      unfold set_omega_k_0_spec
      rw [dlookup_dupdate_other _ _ _ _ hk1,
        foldl_fill_dlookup wkeys k d hk]
  · rename_i hA
    split <;>
    · rw [dlookup_dupdate_other _ _ _ _ hk2]
      unfold set_omega_k_0_spec
      rw [dlookup_dupdate_other _ _ _ _ hk1,
        foldl_fill_dlookup wkeys k _ (hasKey_dupdate_other d k "A_scaling" _ hk)]
      exact dlookup_dupdate_other d k "A_scaling" _ (fun hkA => hA (hkA ▸ hk))

/-- Witness for the amended C9 at a one-key caller dict. -/
theorem getcosmo_preserves_caller_values_witness :
    (hasKey [(("x" : String), (5 : ℝ))] "x" = true ∧
      ("x" : String) ≠ "omega_k_0" ∧ ("x" : String) ≠ "baryonic_effects") ∧
      dlookup (getcosmo_dict rtm9 set_omega_k_0_spec wkeys9 [("x", 5)]) "x" =
        dlookup [(("x" : String), (5 : ℝ))] "x" :=
  ⟨⟨by decide, by decide, by decide⟩,
    getcosmo_preserves_caller_values rtm9 wkeys9 [("x", 5)] "x"
      (by decide) (by decide) (by decide)⟩

/-- A fallible loop whose body is the image of another body under a mapping
produces the mapped output. -/
theorem exceptMap_map_congr {α β ε : Type} (f g : α → Except ε β) (hmap : β → β)
    (l : List α) (H : ∀ a ∈ l, g a = Except.map hmap (f a)) :
    exceptMap g l = Except.map (List.map hmap) (exceptMap f l) := by
  induction l with
  | nil => rfl
  | cons a t ih =>
    have ha := H a (List.mem_cons_self a t)
    have ht := ih fun b hb => H b (List.mem_cons_of_mem a hb)
    simp only [exceptMap]
    rcases hfa : f a with e | b <;> rw [hfa] at ha
    · simp only [ha, Except.map]
    · simp only [ha, Except.map]
      rcases hft : exceptMap f t with e2 | bs <;> rw [hft] at ht
      · simp only [ht, Except.map]
      · simp only [ht, Except.map, List.map_cons]

/-- The sample-loop body in com-only mode is the joint-mode body with the MAH
columns dropped: both modes hand COM the same `(ztemp, Mz)` arguments. -/
theorem runSampleRows_comOnly_dropMah (E : Oracles) (C : CosmoP) (lenzout : Nat)
    (z : Option (List ℝ)) (zval Mval : ℝ) :
    runSampleRows E C true false lenzout z zval Mval =
      Except.map (List.map OutRow.dropMah)
        (runSampleRows E C true true lenzout z zval Mval) := by
  rcases z with _ | zl
  · simp only [runSampleRows, Bool.and_self, Bool.false_and, if_neg Bool.false_ne_true]
    split
    · rcases hcom : COM E C [zval] (MAH E C [zval] zval Mval).2 with e | rows <;>
        simp [hcom, Except.map, List.map_append, List.map_map, List.map_replicate,
          OutRow.dropMah, Function.comp]
    · simp [Except.map, List.map_replicate, OutRow.dropMah]
  · simp only [runSampleRows, Bool.and_self, Bool.false_and, if_neg Bool.false_ne_true]
    split
    · rcases hcom : COM E C (zl.filter fun x => decide (zval ≤ x))
          (MAH E C (zl.filter fun x => decide (zval ≤ x)) zval Mval).2 with e | rows <;>
        simp [hcom, Except.map, List.map_append, List.map_map, List.map_replicate,
          OutRow.dropMah, Function.comp]
    · simp [Except.map, List.map_replicate, OutRow.dropMah]

/-- Amended claim C1: with `com=True` the concentration solver is invoked, for
each sample, with `z` equal to the valid targets and `M` equal to the `Mz`
array of the per-sample MAH block — whether or not `mah` is requested: the
com-only run equals the joint run with the MAH columns dropped, cell by cell
(in particular com-only does NOT use the original `Mi` broadcast). -/
theorem run_comOnly_dropMah (E : Oracles) (C : CosmoP) (zi0 Mi0 : List ℝ)
    (z : Option (List ℝ)) :
    run E C zi0 Mi0 z true false = (run E C zi0 Mi0 z true true).dropMahCols := by
  rcases h : checkinput zi0 Mi0 z with _ | ⟨za, Ma, z2, a1, a2, lz⟩
  · simp [run, h, RunOut.dropMahCols]
  · simp only [run, h, Bool.not_true, Bool.not_false, Bool.false_and, Bool.and_self,
      if_neg Bool.false_ne_true]
    rw [exceptMap_map_congr (fun p => runSampleRows E C true true lz z2 p.1 p.2)
      (fun p => runSampleRows E C true false lz z2 p.1 p.2)
      (List.map OutRow.dropMah) (za.zip Ma)
      (fun p _ => runSampleRows_comOnly_dropMah E C lz z2 p.1 p.2)]
    rcases h2 : exceptMap (fun p => runSampleRows E C true true lz z2 p.1 p.2)
        (za.zip Ma) with e | t
    · simp [h2, Except.map, RunOut.dropMahCols]
    · simp [h2, Except.map, RunOut.dropMahCols]

/-- The quadrature oracle of the C1 counterexample is the constant 2/3. -/
theorem cex_int_growth (z : ℝ) : int_growth cexExt cexCos z = 2 / 3 := rfl

/-- The normalized growth factor of the counterexample instance at z = 0. -/
theorem cex_growth0 : growthfactor cexExt cexCos 0 true = 1 := by
  simp only [growthfactor, cex_int_growth]
  norm_num [cexCos, Real.sqrt_one]

/-- The growth derivative of the counterexample instance vanishes at z = 0. -/
theorem cex_deriv0 : deriv_growth cexExt cexCos 0 = 0 := by
  simp only [deriv_growth, cex_int_growth, cex_growth0]
  norm_num [cexCos, Real.one_rpow]

/-- The progenitor-fraction factor q of `calc_ab` at Mi = 1 exceeds 1. -/
theorem cex_q_gt_one : 1 < 4.137 * (1.8837 : ℝ) ^ (-0.9476 : ℝ) := by
  have h1 : (1.8837 : ℝ) ^ (0.9476 : ℝ) ≤ 1.8837 := by
    calc (1.8837 : ℝ) ^ (0.9476 : ℝ) ≤ (1.8837 : ℝ) ^ (1 : ℝ) :=
      Real.rpow_le_rpow_of_exponent_le (by norm_num) (by norm_num)
    _ = 1.8837 := Real.rpow_one _
  have h0 : (0 : ℝ) < (1.8837 : ℝ) ^ (0.9476 : ℝ) :=
    Real.rpow_pos_of_pos (by norm_num) _
  have h2 : (1.8837 : ℝ) ^ (-0.9476 : ℝ) = ((1.8837 : ℝ) ^ (0.9476 : ℝ))⁻¹ := by
    rw [show (-0.9476 : ℝ) = -(0.9476 : ℝ) by norm_num,
      Real.rpow_neg (by norm_num : (0 : ℝ) ≤ 1.8837)]
  rw [h2]
  have h3 : (1.8837 : ℝ)⁻¹ ≤ ((1.8837 : ℝ) ^ (0.9476 : ℝ))⁻¹ :=
    inv_anti₀ h0 h1
  calc (1 : ℝ) < 4.137 * (1.8837 : ℝ)⁻¹ := by norm_num
  _ ≤ 4.137 * ((1.8837 : ℝ) ^ (0.9476 : ℝ))⁻¹ :=
    mul_le_mul_of_nonneg_left h3 (by norm_num)

/-- The mass-variance factor f of the counterexample instance. -/
noncomputable def cexF : ℝ := ((3 : ℝ) ^ 2 - 1 ^ 2) ^ (-0.5 : ℝ)

/-- cexF is positive. -/
theorem cexF_pos : 0 < cexF := by
  have : ((3 : ℝ) ^ 2 - 1 ^ 2) = 8 := by norm_num
  rw [cexF, this]
  exact Real.rpow_pos_of_pos (by norm_num) _

/-- The mass-to-radius oracle of the counterexample is the identity. -/
theorem cex_mtr (x : ℝ) : cexExt.mass_to_radius x = x := rfl

/-- The mass-variance oracle of the counterexample separates radius 1. -/
theorem cex_sigma (x : ℝ) : cexExt.sigma_r x = if x = 1 then (1 : ℝ) else 3 := rfl

/-- The growth-rate indices of the counterexample instance at (zi, Mi) = (0, 1). -/
theorem cex_calc_ab : calc_ab cexExt cexCos 0 1 = (cexF, -cexF) := by
  have hzf : -0.0064 * (Real.logb 10 (1 : ℝ)) ^ 2 + 0.0237 * Real.logb 10 (1 : ℝ) +
      1.8837 = (1.8837 : ℝ) := by
    rw [Real.logb_one]
    norm_num
  have hqpos : (0 : ℝ) < 4.137 * (1.8837 : ℝ) ^ (-0.9476 : ℝ) := by
    linarith [cex_q_gt_one]
  have hqne : (1 : ℝ) / (4.137 * (1.8837 : ℝ) ^ (-0.9476 : ℝ)) ≠ 1 := by
    intro hcontra
    rw [div_eq_iff (ne_of_gt hqpos), one_mul] at hcontra
    linarith [cex_q_gt_one]
  simp only [calc_ab, cex_mtr, cex_sigma, cex_deriv0, cex_growth0, hzf]
  rw [if_neg hqne]
  simp only [cexF]
  norm_num

/-- The MAH-evolved mass of the counterexample sample at target z = 1 is
strictly below the initial mass 1. -/
theorem cex_Mz_lt_one : (acc_rate cexExt cexCos 1 0 1).2 < 1 := by
  show (1 : ℝ) * (1 + 1 - 0) ^ (calc_ab cexExt cexCos 0 1).1 *
      Real.exp ((calc_ab cexExt cexCos 0 1).2 * (1 - 0)) < 1
  rw [cex_calc_ab]
  show (1 : ℝ) * (1 + 1 - 0) ^ cexF * Real.exp (-cexF * (1 - 0)) < 1
  rw [show (1 + 1 - 0 : ℝ) = 2 by norm_num,
    Real.rpow_def_of_pos (by norm_num : (0 : ℝ) < 2), one_mul, ← Real.exp_add]
  rw [Real.exp_lt_one_iff]
  have hlog : Real.log 2 < 1 := by
    have := Real.log_two_lt_d9
    linarith
  nlinarith [cexF_pos, mul_lt_mul_of_pos_right hlog cexF_pos]

/-- The MAH output of the counterexample sample. -/
theorem cex_MAH : MAH cexExt cexCos [1] 0 1 =
    ([(acc_rate cexExt cexCos 1 0 1).1], [(acc_rate cexExt cexCos 1 0 1).2]) := rfl

/-- The mass-variance the run stores for the MAH-evolved mass is 3. -/
theorem cex_sig_run :
    cexExt.sigma_r (cexExt.mass_to_radius (acc_rate cexExt cexCos 1 0 1).2) = 3 := by
  rw [cex_mtr, cex_sigma, if_neg (ne_of_lt cex_Mz_lt_one)]

/-- The mass-variance the claimed behaviour would store for the original
mass 1 is 1. -/
theorem cex_sig_claim : cexExt.sigma_r (cexExt.mass_to_radius (1 : ℝ)) = 1 := by
  rw [cex_mtr, cex_sigma, if_pos rfl]

/-- The COM output on the counterexample's actual arguments (targets, Mz). -/
theorem cex_COM_run : COM cexExt cexCos [1] [(acc_rate cexExt cexCos 1 0 1).2] =
    .ok [((5 : ℝ), 3, 1.686 / (3 * growthfactor cexExt cexCos 1 true),
      formationz 5 1 cexCos.A_scaling cexCos.omega_M_0 cexCos.omega_lambda_0)] := by
  have hrow := COM_row_brentq_ok cexExt cexCos 1 (acc_rate cexExt cexCos 1 0 1).2 5 rfl
  rw [if_neg not_isclose_five, cex_sig_run] at hrow
  simp only [COM, List.zip_cons_cons, List.zip_nil_right, exceptMap, hrow]

/-- The COM output on the claim's asserted arguments (targets, broadcast Mi). -/
theorem cex_COM_claim : COM cexExt cexCos [1] [(1 : ℝ)] =
    .ok [((5 : ℝ), 1, 1.686 / (1 * growthfactor cexExt cexCos 1 true),
      formationz 5 1 cexCos.A_scaling cexCos.omega_M_0 cexCos.omega_lambda_0)] := by
  have hrow := COM_row_brentq_ok cexExt cexCos 1 1 5 rfl
  rw [if_neg not_isclose_five, cex_sig_claim] at hrow
  simp only [COM, List.zip_cons_cons, List.zip_nil_right, exceptMap, hrow]

/-- The single requested output redshift 1 is a valid target for zi = 0. -/
theorem cex_ztemp : List.filter (fun x => decide ((0 : ℝ) ≤ x)) [1] = [1] := by
  have h : (fun x => decide ((0 : ℝ) ≤ x)) (1 : ℝ) = true := decide_eq_true (by norm_num)
  simp only [List.filter, h]

/-- The sample-loop output of the counterexample run in com-only mode. -/
theorem cex_sample_run : runSampleRows cexExt cexCos true false 1 (some [1]) 0 1 =
    .ok [OutRow.co 0 1 1 5 3 (1.686 / (3 * growthfactor cexExt cexCos 1 true))
      (formationz 5 1 cexCos.A_scaling cexCos.omega_M_0 cexCos.omega_lambda_0)] := by
  simp [runSampleRows, cex_ztemp, cex_MAH, cex_COM_run, List.range_succ]

/-- The sample-loop output the claim C1 asserts for the same instance. -/
theorem cex_sample_claim : runSampleRowsClaimC1 cexExt cexCos 1 (some [1]) 0 1 =
    .ok [OutRow.co 0 1 1 5 1 (1.686 / (1 * growthfactor cexExt cexCos 1 true))
      (formationz 5 1 cexCos.A_scaling cexCos.omega_M_0 cexCos.omega_lambda_0)] := by
  simp [runSampleRowsClaimC1, cex_ztemp, cex_COM_claim, List.range_succ, List.replicate]

/-- The full run of the counterexample instance in com-only mode. -/
theorem cex_run_run : run cexExt cexCos [0] [1] (some [1]) true false =
    .table [[OutRow.co 0 1 1 5 3 (1.686 / (3 * growthfactor cexExt cexCos 1 true))
      (formationz 5 1 cexCos.A_scaling cexCos.omega_M_0 cexCos.omega_lambda_0)]] := by
  have hchk : checkinput [0] [1] (some [1]) = some ([0], [1], some [1], 1, 1, 1) := rfl
  simp [run, hchk, cex_sample_run, exceptMap]

/-- The full output claim C1 asserts for the counterexample instance. -/
theorem cex_run_claim : runClaimC1 cexExt cexCos [0] [1] (some [1]) =
    .table [[OutRow.co 0 1 1 5 1 (1.686 / (1 * growthfactor cexExt cexCos 1 true))
      (formationz 5 1 cexCos.A_scaling cexCos.omega_M_0 cexCos.omega_lambda_0)]] := by
  have hchk : checkinput [0] [1] (some [1]) = some ([0], [1], some [1], 1, 1, 1) := rfl
  simp [runClaimC1, hchk, cex_sample_claim, exceptMap]

/-- Counterexample for claim C1: with `com=True, mah=False`, `run` does NOT
invoke COM with the original Mi broadcast over the targets.  At the explicit
instance (oracles `cexExt`, cosmology `cexCos`, zi=[0], Mi=[1], z=[1]), the
actual run stores the mass variance sigma(R(Mz)) = 3 of the MAH-evolved mass
Mz < 1, while the claim's asserted behaviour (`runClaimC1`, COM on the
broadcast Mi) would store sigma(R(1)) = 1, so the two outputs differ. -/
theorem run_comOnly_claimC1_counterexample :
    run cexExt cexCos [0] [1] (some [1]) true false ≠
      runClaimC1 cexExt cexCos [0] [1] (some [1]) := by
  rw [cex_run_run, cex_run_claim]
  intro hcontra
  simp only [RunOut.table.injEq, List.cons.injEq, OutRow.co.injEq] at hcontra
  norm_num at hcontra
